import Mathlib

/-!
Shallow embedding of the apt_exporter program (apt_exporter.go): the output
parser, the snapshot cache, the metric collection, the refresh operations and
the startup/watch dispatch, together with theorems checking the claims of the
natural-language specification against these definitions.

Strings manipulated character by character are modelled as lists of
characters; machine details (channels, goroutines) are modelled by explicit
state passing and by returning the list of emitted samples.
-/

namespace AptExporter

/-- One parsed line of apt listing output (struct Package in the source). -/
structure Package where
  Name : List Char
  Suites : List (List Char)
  Architecture : List Char
deriving DecidableEq

/-- Splits a character list at every occurrence of the separator character,
keeping empty pieces, as strings.Split does for a one-character separator. -/
def splitOnChar (c : Char) : List Char → List (List Char)
  | [] => [[]]
  | x :: xs =>
    let r := splitOnChar c xs
    if x = c then [] :: r
    else
      match r with
      | h :: t => (x :: h) :: t
      | [] => [[x]]

/-- Drops one trailing carriage return from a token, as the dropCR helper of
bufio's ScanLines does. -/
def dropCR (l : List Char) : List Char :=
  if l.getLast? = some '\r' then l.dropLast else l

/-- Splits raw command output into lines the way bufio.Scanner with ScanLines
does: pieces between newline characters, a trailing newline not producing a
final empty token, and one trailing carriage return stripped per token. -/
def splitLines (out : List Char) : List (List Char) :=
  if out = [] then []
  else
    let ls := splitOnChar '\n' out
    let ls := if out.getLast? = some '\n' then ls.dropLast else ls
    ls.map dropCR

/-- Finds the rightmost slash of the list that is followed by at least one
character, returning the pieces before and after it. This is where the
backtracking search of the anchored pattern of parseAptOutput places the
boundary between the first and the second capture group, before the
requirement that the first group be nonempty is taken into account. -/
def lastSlashAux : List Char → Option (List Char × List Char)
  | [] => none
  | x :: xs =>
    match lastSlashAux xs with
    | some (p, s) => some (x :: p, s)
    | none => if x = '/' ∧ xs ≠ [] then some ([], xs) else none

/-- Splits the first whitespace-free field of a listing line into the name
part and the suite part, exactly as the greedy groups of the source pattern
do: the split happens at the rightmost slash having a nonempty piece on both
sides, and there is no match when no such slash exists. -/
def slashSplit (l : List Char) : Option (List Char × List Char) :=
  match lastSlashAux l with
  | some (p, s) => if p = [] then none else some (p, s)
  | none => none

/-- The worker of unique: walks the source list keeping a set of already seen
values, emitting each value the first time only, as the map-guarded loop of
the source function unique does. -/
def uniqueAux : List (List Char) → List (List Char) → List (List Char)
  | [], _ => []
  | v :: rest, seen =>
    if v ∈ seen then uniqueAux rest seen
    else v :: uniqueAux rest (v :: seen)

/-- Deduplicates a list of strings keeping the first occurrence of each value
(function unique of the source). -/
def unique (src : List (List Char)) : List (List Char) :=
  uniqueAux src []

/-- Specification-side formulation of first-appearance deduplication: fold
left over the list, appending a value only when it is not present yet. Used
to state that unique keeps the order of first appearance. -/
def dedupFirst (l : List (List Char)) : List (List Char) :=
  l.foldl (fun acc v => if v ∈ acc then acc else acc ++ [v]) []

/-- Matches the space-separated fields of one line against the anchored
pattern of parseAptOutput: the first field must split at a slash into a
nonempty name and a nonempty suite list, and the second and third fields must
be nonempty; everything after the third field is ignored. -/
def matchFields : List (List Char) → Option Package
  | f1 :: f2 :: f3 :: _ =>
    match slashSplit f1 with
    | some (name, suitesField) =>
      if f2 = [] ∨ f3 = [] then none
      else some ⟨name, unique (splitOnChar ',' suitesField), f3⟩
    | none => none
  | _ => none

/-- Matches one line of listing output against the pattern of
parseAptOutput, producing the Package record of a matching line. -/
def matchLine (line : List Char) : Option Package :=
  matchFields (splitOnChar ' ' line)

/-- Parses raw listing output into package records (function parseAptOutput
of the source): scan the input line by line, appending one record per line
that matches the pattern and skipping every other line. -/
def parseAptOutput (out : List Char) : List Package :=
  (splitLines out).foldl
    (fun ps line =>
      match matchLine line with
      | some p => ps ++ [p]
      | none => ps)
    []

/-- The key under which the installed-packages snapshot is cached. -/
def CACHE_INSTALLED_PACKAGES : String := "installed_packages"

/-- The key under which the upgradeable-packages snapshot is cached. -/
def CACHE_UPGRADEABLE_PACKAGES : String := "upgradeable_packages"

/-- The snapshot cache: a key-value store from string keys to parsed package
lists, absence meaning that no refresh for that key ever succeeded. -/
def Cache : Type := String → Option (List Package)

/-- Unconditionally overwrites the value stored under a key. -/
def Cache.set (c : Cache) (k : String) (v : List Package) : Cache :=
  fun q => if q = k then some v else c q

/-- Returns the most recently stored value for a key, or none. -/
def Cache.get (c : Cache) (k : String) : Option (List Package) :=
  c k

/-- The cache before any refresh has succeeded. -/
def Cache.empty : Cache :=
  fun _ => none

/-- A pair of label values in the fixed order of the declared label names of
a counter family: the first component is the value bound to the label named
architecture, the second the value bound to the label named suite. -/
abbrev LabelPair := List Char × List Char

/-- A counter vector: counts keyed by label-value pairs, kept in first-touch
order. -/
abbrev CounterVec := List (LabelPair × Nat)

/-- Increments the counter of one label-value pair, creating it at one. -/
def CounterVec.inc : CounterVec → LabelPair → CounterVec
  | [], k => [(k, 1)]
  | (q, n) :: rest, k =>
    if q = k then (q, n + 1) :: rest
    else (q, n) :: CounterVec.inc rest k

/-- One emitted metric sample. For the two counter families the first
argument is the value carried by the label named architecture and the second
the value carried by the label named suite, matching the declared label name
order of the source counter vectors. -/
inductive Metric where
  | up (v : Nat)
  | rebootRequired (v : Nat)
  | packagesInstalled (architecture suite : List Char) (v : Nat)
  | packagesUpgradeable (architecture suite : List Char) (v : Nat)
deriving DecidableEq

/-- The samples of the apt_packages_installed family for one snapshot: for
every record and every suite of the record, one increment. The source passes
the suite value first and the architecture value second to WithLabelValues,
so the suite value lands in the first (architecture-named) label slot. -/
def installedMetrics (ps : List Package) : List Metric :=
  (ps.foldl
      (fun cv p =>
        p.Suites.foldl (fun cv2 s => CounterVec.inc cv2 (s, p.Architecture)) cv)
      ([] : CounterVec)).map
    (fun x => Metric.packagesInstalled x.1.1 x.1.2 x.2)

/-- The samples of the apt_packages_upgradeable family for one snapshot: the
source passes the architecture value first and the suite value second. -/
def upgradeableMetrics (ps : List Package) : List Metric :=
  (ps.foldl
      (fun cv p =>
        p.Suites.foldl (fun cv2 s => CounterVec.inc cv2 (p.Architecture, s)) cv)
      ([] : CounterVec)).map
    (fun x => Metric.packagesUpgradeable x.1.1 x.1.2 x.2)

/-- Reads the installed snapshot and produces its samples, or an error when
the cache key does not exist (method collectInstalledPackages). -/
def collectInstalledPackages (c : Cache) : Except String (List Metric) :=
  match c.get CACHE_INSTALLED_PACKAGES with
  | none => Except.error ("cache item with key installed_packages does not exist")
  | some ps => Except.ok (installedMetrics ps)

/-- Reads the upgradeable snapshot and produces its samples, or an error when
the cache key does not exist (method collectUpgradeablePackages). -/
def collectUpgradeablePackages (c : Cache) : Except String (List Metric) :=
  match c.get CACHE_UPGRADEABLE_PACKAGES with
  | none => Except.error ("cache item with key upgradeable_packages does not exist")
  | some ps => Except.ok (upgradeableMetrics ps)

/-- The outcome of the existence check on the reboot marker path, as seen
through os.IsNotExist: the check succeeded, or it failed with a not-exist
error, or it failed with any other error. -/
inductive StatResult where
  | ok
  | notExist
  | otherError
deriving DecidableEq

/-- A filesystem mapping paths to file contents, for paths that exist. -/
def Filesystem : Type := String → Option (List Char)

/-- The existence check of a path on a filesystem on which stat itself never
fails: a present path yields a successful stat whatever its contents. -/
def statPath (fs : Filesystem) (p : String) : StatResult :=
  match fs p with
  | some _ => StatResult.ok
  | none => StatResult.notExist

/-- The reboot marker path checked on every scrape. -/
def rebootRequiredPath : String := "/run/reboot-required"

/-- The reboot-required sample (method collectRebootRequired): zero exactly
when the existence check failed with a not-exist error, one in every other
case. -/
def collectRebootRequired (st : StatResult) : Metric :=
  match st with
  | StatResult.notExist => Metric.rebootRequired 0
  | _ => Metric.rebootRequired 1

/-- One scrape (method Collect): the installed samples, then the upgradeable
samples, then the reboot-required sample and the up gauge at one; a missing
installed key yields only the up gauge at zero, and a missing upgradeable key
yields the installed samples followed by the up gauge at zero. -/
def Collect (c : Cache) (st : StatResult) : List Metric :=
  match collectInstalledPackages c with
  | Except.error _ => [Metric.up 0]
  | Except.ok ms1 =>
    match collectUpgradeablePackages c with
    | Except.error _ => ms1 ++ [Metric.up 0]
    | Except.ok ms2 => ms1 ++ ms2 ++ [collectRebootRequired st, Metric.up 1]

/-- Refreshes the installed snapshot (method cacheInstalledPackages), given
the outcome of the external listing command: on command failure the error is
returned and the cache is untouched, on success the parsed output replaces
the installed key. -/
def cacheInstalledPackages (c : Cache) (cmdOut : Except String (List Char)) :
    Except String Unit × Cache :=
  match cmdOut with
  | Except.error e => (Except.error e, c)
  | Except.ok out =>
    (Except.ok (), c.set CACHE_INSTALLED_PACKAGES (parseAptOutput out))

/-- Refreshes the upgradeable snapshot (method cacheUpgradeablePackages),
with the same shape as the installed refresh. -/
def cacheUpgradeablePackages (c : Cache) (cmdOut : Except String (List Char)) :
    Except String Unit × Cache :=
  match cmdOut with
  | Except.error e => (Except.error e, c)
  | Except.ok out =>
    (Except.ok (), c.set CACHE_UPGRADEABLE_PACKAGES (parseAptOutput out))

/-- The two refresh operations the event loop can invoke. -/
inductive RefreshAction where
  | refreshInstalled
  | refreshUpgradeable
deriving DecidableEq, BEq

/-- The event dispatch of the watch loop (the switch on the event name in
method Watch): the refresh operations invoked, in order, for one filesystem
event with the given path. -/
def handleEvent (name : String) : List RefreshAction :=
  if name = "/var/log/apt/history.log" then
    [RefreshAction.refreshInstalled, RefreshAction.refreshUpgradeable]
  else if name = "/var/lib/apt/periodic/update-stamp" then
    [RefreshAction.refreshUpgradeable]
  else if name = "/var/lib/apt/periodic/update-success-stamp" then
    [RefreshAction.refreshUpgradeable]
  else
    []

/-- The four startup steps of method Watch, in source order. -/
inductive StartupStep where
  | refreshInstalled
  | addWatchHistoryLog
  | refreshUpgradeable
  | addWatchPeriodicDir
deriving DecidableEq

/-- The outcomes of the four external operations the startup sequence of
method Watch performs: the two listing commands and the two watch
registrations. -/
structure WatchEnv where
  installedCmd : Except String (List Char)
  historyLogWatch : Except String Unit
  upgradeableCmd : Except String (List Char)
  periodicDirWatch : Except String Unit

/-- The startup sequence of method Watch: refresh installed, add the watch on
the package history log, refresh upgradeable, add the watch on the periodic
directory, stopping at the first failing step and returning its error. The
result carries the outcome, the cache after the executed refreshes and the
ordered trace of the steps that were executed. -/
def WatchStartup (env : WatchEnv) (c : Cache) :
    Except String Unit × Cache × List StartupStep :=
  match cacheInstalledPackages c env.installedCmd with
  | (Except.error e, c1) => (Except.error e, c1, [StartupStep.refreshInstalled])
  | (Except.ok _, c1) =>
    match env.historyLogWatch with
    | Except.error e =>
      (Except.error e, c1, [StartupStep.refreshInstalled, StartupStep.addWatchHistoryLog])
    | Except.ok _ =>
      match cacheUpgradeablePackages c1 env.upgradeableCmd with
      | (Except.error e, c2) =>
        (Except.error e, c2,
          [StartupStep.refreshInstalled, StartupStep.addWatchHistoryLog,
            StartupStep.refreshUpgradeable])
      | (Except.ok _, c2) =>
        match env.periodicDirWatch with
        | Except.error e =>
          (Except.error e, c2,
            [StartupStep.refreshInstalled, StartupStep.addWatchHistoryLog,
              StartupStep.refreshUpgradeable, StartupStep.addWatchPeriodicDir])
        | Except.ok _ =>
          (Except.ok (), c2,
            [StartupStep.refreshInstalled, StartupStep.addWatchHistoryLog,
              StartupStep.refreshUpgradeable, StartupStep.addWatchPeriodicDir])

/-- What main does with the outcome of Watch: an error makes the process exit
with code one, success lets it continue serving (no exit). -/
def mainExitCode (watchResult : Except String Unit) : Option Nat :=
  match watchResult with
  | Except.error _ => some 1
  | Except.ok _ => none

/-! ### Helper lemmas -/

theorem splitOnChar_ne_nil (c : Char) (l : List Char) : splitOnChar c l ≠ [] := by
  cases l with
  | nil => simp [splitOnChar]
  | cons x xs =>
    simp only [splitOnChar]
    split
    · simp
    · split <;> simp

theorem uniqueAux_mem_not_seen :
    ∀ (l seen : List (List Char)) (v : List Char), v ∈ uniqueAux l seen → v ∉ seen := by
  intro l
  induction l with
  | nil => intro seen v h; simp [uniqueAux] at h
  | cons w rest ih =>
    intro seen v h
    by_cases hw : w ∈ seen
    · rw [uniqueAux, if_pos hw] at h
      exact ih seen v h
    · rw [uniqueAux, if_neg hw] at h
      rcases List.mem_cons.mp h with h1 | h1
      · subst h1; exact hw
      · have := ih (w :: seen) v h1
        exact fun hv => this (List.mem_cons_of_mem w hv)

theorem uniqueAux_nodup : ∀ (l seen : List (List Char)), (uniqueAux l seen).Nodup := by
  intro l
  induction l with
  | nil => intro seen; simp [uniqueAux]
  | cons w rest ih =>
    intro seen
    by_cases hw : w ∈ seen
    · rw [uniqueAux, if_pos hw]; exact ih seen
    · rw [uniqueAux, if_neg hw]
      refine List.nodup_cons.mpr ⟨?_, ih (w :: seen)⟩
      intro hmem
      exact uniqueAux_mem_not_seen rest (w :: seen) w hmem (List.mem_cons_self w seen)

theorem unique_nodup (l : List (List Char)) : (unique l).Nodup :=
  uniqueAux_nodup l []

theorem unique_ne_nil (x : List Char) (xs : List (List Char)) : unique (x :: xs) ≠ [] := by
  rw [unique, uniqueAux, if_neg (List.not_mem_nil x)]
  simp

theorem foldl_dedup_eq_uniqueAux :
    ∀ (l acc seen : List (List Char)), (∀ v, v ∈ seen ↔ v ∈ acc) →
      l.foldl (fun a v => if v ∈ a then a else a ++ [v]) acc = acc ++ uniqueAux l seen := by
  intro l
  induction l with
  | nil => intro acc seen _; simp [uniqueAux]
  | cons w rest ih =>
    intro acc seen hiff
    simp only [List.foldl_cons, uniqueAux]
    by_cases hw : w ∈ seen
    · rw [if_pos ((hiff w).mp hw), if_pos hw]
      exact ih acc seen hiff
    · have hw2 : w ∉ acc := fun h => hw ((hiff w).mpr h)
      rw [if_neg hw2, if_neg hw]
      have hiff2 : ∀ v, v ∈ w :: seen ↔ v ∈ acc ++ [w] := by
        intro v
        simp [List.mem_cons, List.mem_append, hiff v, or_comm]
      rw [ih (acc ++ [w]) (w :: seen) hiff2]
      simp

theorem unique_eq_dedupFirst (l : List (List Char)) : unique l = dedupFirst l := by
  rw [dedupFirst, unique, foldl_dedup_eq_uniqueAux l [] [] (by simp), List.nil_append]

theorem lastSlashAux_eq_none :
    ∀ l : List Char, lastSlashAux l = none → '/' ∉ l.dropLast := by
  intro l
  induction l with
  | nil => intro _; simp
  | cons x xs ih =>
    intro h
    simp only [lastSlashAux] at h
    rcases hxs : lastSlashAux xs with _ | ⟨p, s⟩
    · rw [hxs] at h
      have h2 : (if x = '/' ∧ xs ≠ [] then some (([] : List Char), xs) else none) =
          (none : Option (List Char × List Char)) := h
      by_cases hc : x = '/' ∧ xs ≠ []
      · rw [if_pos hc] at h2; cases h2
      · cases xs with
        | nil => simp
        | cons y ys =>
          have hx : x ≠ '/' := fun hx => hc ⟨hx, by simp⟩
          have hys := ih hxs
          show '/' ∉ x :: (y :: ys).dropLast
          intro hmem
          rcases List.mem_cons.mp hmem with h1 | h1
          · exact hx h1.symm
          · exact hys h1
    · rw [hxs] at h
      have h2 : some (x :: p, s) = (none : Option (List Char × List Char)) := h
      cases h2

theorem lastSlashAux_eq_some :
    ∀ (l p s : List Char), lastSlashAux l = some (p, s) →
      l = p ++ '/' :: s ∧ s ≠ [] ∧ '/' ∉ s.dropLast := by
  intro l
  induction l with
  | nil => intro p s h; simp [lastSlashAux] at h
  | cons x xs ih =>
    intro p s h
    simp only [lastSlashAux] at h
    rcases hxs : lastSlashAux xs with _ | ⟨p1, s1⟩
    · rw [hxs] at h
      have h2 : (if x = '/' ∧ xs ≠ [] then some (([] : List Char), xs) else none) =
          some (p, s) := h
      by_cases hc : x = '/' ∧ xs ≠ []
      · rw [if_pos hc] at h2
        injection h2 with h1
        injection h1 with hp hs
        subst hs
        subst hp
        refine ⟨by simp [hc.1], hc.2, lastSlashAux_eq_none xs hxs⟩
      · rw [if_neg hc] at h2; cases h2
    · rw [hxs] at h
      have h2 : some (x :: p1, s1) = some (p, s) := h
      injection h2 with h1
      injection h1 with hp hs
      subst hs
      subst hp
      obtain ⟨hl, hs1, hd⟩ := ih p1 s1 hxs
      exact ⟨by simp [hl], hs1, hd⟩

theorem slashSplit_eq_some (l n s : List Char) (h : slashSplit l = some (n, s)) :
    l = n ++ '/' :: s ∧ n ≠ [] ∧ s ≠ [] ∧ '/' ∉ s.dropLast := by
  rw [slashSplit] at h
  rcases hk : lastSlashAux l with _ | ⟨p1, s1⟩ <;> rw [hk] at h
  · cases h
  · have h2 : (if p1 = [] then none else some (p1, s1)) = some (n, s) := h
    by_cases hp : p1 = []
    · rw [if_pos hp] at h2; cases h2
    · rw [if_neg hp] at h2
      injection h2 with h1
      injection h1 with hn hs
      subst hs
      subst hn
      obtain ⟨hl, hs1, hd⟩ := lastSlashAux_eq_some l p1 s1 hk
      exact ⟨hl, hp, hs1, hd⟩

theorem foldl_match_eq_filterMap :
    ∀ (ls : List (List Char)) (acc : List Package),
      ls.foldl
          (fun ps line =>
            match matchLine line with
            | some p => ps ++ [p]
            | none => ps)
          acc =
        acc ++ ls.filterMap matchLine := by
  intro ls
  induction ls with
  | nil => intro acc; simp
  | cons l rest ih =>
    intro acc
    simp only [List.foldl_cons, List.filterMap_cons]
    cases hm : matchLine l with
    | none => exact ih acc
    | some p => exact (ih (acc ++ [p])).trans (by simp)

theorem parseAptOutput_eq_filterMap (out : List Char) :
    parseAptOutput out = (splitLines out).filterMap matchLine := by
  rw [parseAptOutput, foldl_match_eq_filterMap, List.nil_append]

theorem matchLine_eq_some (line : List Char) (p : Package) (h : matchLine line = some p) :
    ∃ f1 suitesField f2 f3 rest,
      splitOnChar ' ' line = f1 :: f2 :: f3 :: rest ∧
      f1 = p.Name ++ '/' :: suitesField ∧
      p.Name ≠ [] ∧ suitesField ≠ [] ∧ '/' ∉ suitesField.dropLast ∧
      f2 ≠ [] ∧ f3 ≠ [] ∧
      p.Suites = unique (splitOnChar ',' suitesField) ∧
      p.Architecture = f3 := by
  rw [matchLine] at h
  rcases hsp : splitOnChar ' ' line with _ | ⟨f1, _ | ⟨f2, _ | ⟨f3, rest⟩⟩⟩ <;> rw [hsp] at h
  · simp [matchFields] at h
  · simp [matchFields] at h
  · simp [matchFields] at h
  · simp only [matchFields] at h
    rcases hsl : slashSplit f1 with _ | ⟨name, sf⟩ <;> rw [hsl] at h
    · cases h
    · have h2 : (if f2 = [] ∨ f3 = [] then none
          else some (⟨name, unique (splitOnChar ',' sf), f3⟩ : Package)) = some p := h
      by_cases hc : f2 = [] ∨ f3 = []
      · rw [if_pos hc] at h2; cases h2
      · rw [if_neg hc] at h2
        injection h2 with h1
        push_neg at hc
        obtain ⟨hl, hn, hs, hd⟩ := slashSplit_eq_some f1 name sf hsl
        subst h1
        exact ⟨f1, sf, f2, f3, rest, rfl, hl, hn, hs, hd, hc.1, hc.2, rfl, rfl⟩

/-! ### Claim theorems -/

/-- Claim C1: for every cache state, Collect degrades gracefully and signals
availability via the up gauge. With the installed key absent it emits only
the up sample at zero and no package-count samples; with the installed key
present but the upgradeable key absent it emits the installed-count samples
followed by the up sample at zero and no upgradeable-count samples; with
both keys present it emits both count families, the reboot-required sample
and the up sample at one. -/
theorem collect_degrades_gracefully (c : Cache) (st : StatResult) :
    (Cache.get c CACHE_INSTALLED_PACKAGES = none → Collect c st = [Metric.up 0]) ∧
    (∀ ps, Cache.get c CACHE_INSTALLED_PACKAGES = some ps →
      Cache.get c CACHE_UPGRADEABLE_PACKAGES = none →
      Collect c st = installedMetrics ps ++ [Metric.up 0] ∧
      ∀ m ∈ Collect c st, ∀ a s v, m ≠ Metric.packagesUpgradeable a s v) ∧
    (∀ ps qs, Cache.get c CACHE_INSTALLED_PACKAGES = some ps →
      Cache.get c CACHE_UPGRADEABLE_PACKAGES = some qs →
      Collect c st =
        installedMetrics ps ++ upgradeableMetrics qs ++
          [collectRebootRequired st, Metric.up 1]) := by
  refine ⟨?_, ?_, ?_⟩
  · intro h
    simp [Collect, collectInstalledPackages, h]
  · intro ps h1 h2
    have hcoll : Collect c st = installedMetrics ps ++ [Metric.up 0] := by
      simp [Collect, collectInstalledPackages, collectUpgradeablePackages, h1, h2]
    refine ⟨hcoll, ?_⟩
    intro m hm a s v
    rw [hcoll] at hm
    rcases List.mem_append.mp hm with hmi | hmu
    · obtain ⟨x, _, hx⟩ := List.mem_map.mp hmi
      rw [← hx]
      intro hcontra
      cases hcontra
    · rw [List.mem_singleton] at hmu
      subst hmu
      intro hcontra
      cases hcontra
  · intro ps qs h1 h2
    simp [Collect, collectInstalledPackages, collectUpgradeablePackages, h1, h2]

/-- Witness for claim C1 at the empty cache: only the up sample at zero. -/
theorem collect_degrades_gracefully_witness :
    Collect Cache.empty StatResult.notExist = [Metric.up 0] :=
  (collect_degrades_gracefully Cache.empty StatResult.notExist).1 rfl

/-- Claim C2: an event on the package history log triggers exactly one
refreshInstalled and one refreshUpgradeable; an event on either periodic
update stamp triggers exactly one refreshUpgradeable and no
refreshInstalled; an event on any other path triggers neither. -/
theorem watch_event_dispatch (name : String) :
    (name = "/var/log/apt/history.log" →
      (handleEvent name).count RefreshAction.refreshInstalled = 1 ∧
      (handleEvent name).count RefreshAction.refreshUpgradeable = 1) ∧
    ((name = "/var/lib/apt/periodic/update-stamp" ∨
        name = "/var/lib/apt/periodic/update-success-stamp") →
      (handleEvent name).count RefreshAction.refreshInstalled = 0 ∧
      (handleEvent name).count RefreshAction.refreshUpgradeable = 1) ∧
    (name ≠ "/var/log/apt/history.log" →
      name ≠ "/var/lib/apt/periodic/update-stamp" →
      name ≠ "/var/lib/apt/periodic/update-success-stamp" →
      handleEvent name = []) := by
  refine ⟨?_, ?_, ?_⟩
  · intro h
    subst h
    decide
  · intro h
    rcases h with h | h <;> subst h <;> decide
  · intro h1 h2 h3
    rw [handleEvent, if_neg h1, if_neg h2, if_neg h3]

/-- Witness for claim C2 at the history log path. -/
theorem watch_event_dispatch_witness :
    (handleEvent ("/var/log/apt/history.log")).count RefreshAction.refreshInstalled = 1 ∧
    (handleEvent ("/var/log/apt/history.log")).count RefreshAction.refreshUpgradeable = 1 :=
  (watch_event_dispatch ("/var/log/apt/history.log")).1 rfl

/-- Claim C3: when the external listing command fails, either refresh
operation returns the error and leaves the whole cache, and in particular
the affected key, exactly as it was, so a subsequent Collect serves the same
data as before the failed refresh. -/
theorem refresh_failure_preserves_cache (c : Cache) (e : String) (st : StatResult) :
    cacheInstalledPackages c (Except.error e) = (Except.error e, c) ∧
    cacheUpgradeablePackages c (Except.error e) = (Except.error e, c) ∧
    Cache.get (cacheInstalledPackages c (Except.error e)).2 CACHE_INSTALLED_PACKAGES =
      Cache.get c CACHE_INSTALLED_PACKAGES ∧
    Cache.get (cacheUpgradeablePackages c (Except.error e)).2 CACHE_UPGRADEABLE_PACKAGES =
      Cache.get c CACHE_UPGRADEABLE_PACKAGES ∧
    Collect (cacheInstalledPackages c (Except.error e)).2 st = Collect c st ∧
    Collect (cacheUpgradeablePackages c (Except.error e)).2 st = Collect c st :=
  ⟨rfl, rfl, rfl, rfl, rfl, rfl⟩

/-- Claim C4: the parser is a total function on raw input. Each line that
does not match the fixed pattern contributes zero records; each matching
line contributes exactly one record, is shaped name, slash, suite field,
space, ignored token, space, architecture as its leading space-separated
fields, has its suites equal to the comma-split suite field deduplicated
with order of first appearance preserved, and has the third field as its
architecture; when nothing matches the result is the empty sequence. -/
theorem parse_line_contract (out : List Char) :
    parseAptOutput out = (splitLines out).filterMap matchLine ∧
    ((∀ l ∈ splitLines out, matchLine l = none) → parseAptOutput out = []) ∧
    (∀ line p, matchLine line = some p →
      ∃ f1 suitesField f2 f3 rest,
        splitOnChar ' ' line = f1 :: f2 :: f3 :: rest ∧
        f1 = p.Name ++ '/' :: suitesField ∧
        p.Name ≠ [] ∧ suitesField ≠ [] ∧ f2 ≠ [] ∧ f3 ≠ [] ∧
        p.Suites = dedupFirst (splitOnChar ',' suitesField) ∧
        p.Suites.Nodup ∧
        p.Architecture = f3) := by
  refine ⟨parseAptOutput_eq_filterMap out, ?_, ?_⟩
  · intro h
    rw [parseAptOutput_eq_filterMap]
    exact List.filterMap_eq_nil_iff.mpr h
  · intro line p hm
    obtain ⟨f1, sf, f2, f3, rest, hsp, hf1, hn, hs, _, h2, h3, hsu, ha⟩ :=
      matchLine_eq_some line p hm
    refine ⟨f1, sf, f2, f3, rest, hsp, hf1, hn, hs, h2, h3, ?_, ?_, ha⟩
    · rw [hsu, unique_eq_dedupFirst]
    · rw [hsu]
      exact unique_nodup _

/-- Witness for claim C4 on an input whose single line matches nothing. -/
theorem parse_line_contract_witness :
    (∀ l ∈ splitLines (("Listing... Done").toList), matchLine l = none) ∧
    parseAptOutput (("Listing... Done").toList) = [] :=
  ⟨by decide, (parse_line_contract (("Listing... Done").toList)).2.1 (by decide)⟩

/-- Claim C5, behavior of the code at the claimed input: the example line
parses as claimed, but the installed-count samples carry the suite value in
the label slot named architecture and the architecture value in the label
slot named suite, because the source passes the label values to
WithLabelValues in the opposite order to the declared label names; the
sample the claim describes, architecture amd64 with suite stable, is not
emitted. -/
theorem installed_count_labels_swapped :
    parseAptOutput (("nginx/stable,stable-updates 1.18.0 amd64 [installed]").toList) =
      [⟨("nginx").toList, [("stable").toList, ("stable-updates").toList], ("amd64").toList⟩] ∧
    Collect
        (Cache.set Cache.empty CACHE_INSTALLED_PACKAGES
          (parseAptOutput (("nginx/stable,stable-updates 1.18.0 amd64 [installed]").toList)))
        StatResult.notExist =
      [Metric.packagesInstalled (("stable").toList) (("amd64").toList) 1,
        Metric.packagesInstalled (("stable-updates").toList) (("amd64").toList) 1,
        Metric.up 0] ∧
    Metric.packagesInstalled (("amd64").toList) (("stable").toList) 1 ∉
      Collect
        (Cache.set Cache.empty CACHE_INSTALLED_PACKAGES
          (parseAptOutput (("nginx/stable,stable-updates 1.18.0 amd64 [installed]").toList)))
        StatResult.notExist := by
  decide

/-- Claim C6: the startup routine performs refresh installed, watch the
history log, refresh upgradeable, watch the periodic directory, in that
order; the first failing step makes it return that error with the later
steps not executed, upon which main exits with a non-zero code. -/
theorem watch_startup_sequence (env : WatchEnv) (c : Cache) :
    (∀ e, env.installedCmd = Except.error e →
      WatchStartup env c = (Except.error e, c, [StartupStep.refreshInstalled]) ∧
      mainExitCode (WatchStartup env c).1 = some 1) ∧
    (∀ o1 e, env.installedCmd = Except.ok o1 → env.historyLogWatch = Except.error e →
      WatchStartup env c =
        (Except.error e, Cache.set c CACHE_INSTALLED_PACKAGES (parseAptOutput o1),
          [StartupStep.refreshInstalled, StartupStep.addWatchHistoryLog]) ∧
      mainExitCode (WatchStartup env c).1 = some 1) ∧
    (∀ o1 e, env.installedCmd = Except.ok o1 → env.historyLogWatch = Except.ok () →
      env.upgradeableCmd = Except.error e →
      WatchStartup env c =
        (Except.error e, Cache.set c CACHE_INSTALLED_PACKAGES (parseAptOutput o1),
          [StartupStep.refreshInstalled, StartupStep.addWatchHistoryLog,
            StartupStep.refreshUpgradeable]) ∧
      mainExitCode (WatchStartup env c).1 = some 1) ∧
    (∀ o1 o2 e, env.installedCmd = Except.ok o1 → env.historyLogWatch = Except.ok () →
      env.upgradeableCmd = Except.ok o2 → env.periodicDirWatch = Except.error e →
      WatchStartup env c =
        (Except.error e,
          Cache.set (Cache.set c CACHE_INSTALLED_PACKAGES (parseAptOutput o1))
            CACHE_UPGRADEABLE_PACKAGES (parseAptOutput o2),
          [StartupStep.refreshInstalled, StartupStep.addWatchHistoryLog,
            StartupStep.refreshUpgradeable, StartupStep.addWatchPeriodicDir]) ∧
      mainExitCode (WatchStartup env c).1 = some 1) ∧
    (∀ o1 o2, env.installedCmd = Except.ok o1 → env.historyLogWatch = Except.ok () →
      env.upgradeableCmd = Except.ok o2 → env.periodicDirWatch = Except.ok () →
      WatchStartup env c =
        (Except.ok (),
          Cache.set (Cache.set c CACHE_INSTALLED_PACKAGES (parseAptOutput o1))
            CACHE_UPGRADEABLE_PACKAGES (parseAptOutput o2),
          [StartupStep.refreshInstalled, StartupStep.addWatchHistoryLog,
            StartupStep.refreshUpgradeable, StartupStep.addWatchPeriodicDir]) ∧
      mainExitCode (WatchStartup env c).1 = none) := by
  refine ⟨?_, ?_, ?_, ?_, ?_⟩
  · intro e h
    simp [WatchStartup, cacheInstalledPackages, mainExitCode, h]
  · intro o1 e h1 h2
    simp [WatchStartup, cacheInstalledPackages, mainExitCode, h1, h2]
  · intro o1 e h1 h2 h3
    simp [WatchStartup, cacheInstalledPackages, cacheUpgradeablePackages, mainExitCode,
      h1, h2, h3]
  · intro o1 o2 e h1 h2 h3 h4
    simp [WatchStartup, cacheInstalledPackages, cacheUpgradeablePackages, mainExitCode,
      h1, h2, h3, h4]
  · intro o1 o2 h1 h2 h3 h4
    simp [WatchStartup, cacheInstalledPackages, cacheUpgradeablePackages, mainExitCode,
      h1, h2, h3, h4]

/-- Witness for claim C6 with all four steps succeeding on empty outputs. -/
theorem watch_startup_sequence_witness :
    WatchStartup ⟨Except.ok [], Except.ok (), Except.ok [], Except.ok ()⟩ Cache.empty =
      (Except.ok (),
        Cache.set (Cache.set Cache.empty CACHE_INSTALLED_PACKAGES (parseAptOutput []))
          CACHE_UPGRADEABLE_PACKAGES (parseAptOutput []),
        [StartupStep.refreshInstalled, StartupStep.addWatchHistoryLog,
          StartupStep.refreshUpgradeable, StartupStep.addWatchPeriodicDir]) ∧
    mainExitCode
        (WatchStartup ⟨Except.ok [], Except.ok (), Except.ok [], Except.ok ()⟩
          Cache.empty).1 =
      none :=
  (watch_startup_sequence ⟨Except.ok [], Except.ok (), Except.ok [], Except.ok ()⟩
      Cache.empty).2.2.2.2 [] [] rfl rfl rfl rfl

/-- Claim C7: every record produced by the parser has a non-empty suites
list with no duplicate entries; a record with zero suites is never produced
because a line yielding no suite tokens does not match the pattern. -/
theorem parsed_record_suites_invariant (out : List Char) (p : Package)
    (hp : p ∈ parseAptOutput out) : p.Suites ≠ [] ∧ p.Suites.Nodup := by
  rw [parseAptOutput_eq_filterMap] at hp
  obtain ⟨line, _, hm⟩ := List.mem_filterMap.mp hp
  obtain ⟨f1, sf, f2, f3, rest, hsp, hf1, hn, hs, hd, h2, h3, hsu, ha⟩ :=
    matchLine_eq_some line p hm
  constructor
  · rw [hsu]
    cases hq : splitOnChar ',' sf with
    | nil => exact absurd hq (splitOnChar_ne_nil ',' sf)
    | cons x xs => exact unique_ne_nil x xs
  · rw [hsu]
    exact unique_nodup _

/-- Witness for claim C7 on a line whose suite field repeats one suite. -/
theorem parsed_record_suites_invariant_witness :
    (⟨("nginx").toList, [("stable").toList], ("amd64").toList⟩ : Package) ∈
      parseAptOutput (("nginx/stable,stable 1.0 amd64").toList) ∧
    ([("stable").toList] : List (List Char)) ≠ [] ∧
    ([("stable").toList] : List (List Char)).Nodup :=
  ⟨by decide,
    parsed_record_suites_invariant (("nginx/stable,stable 1.0 amd64").toList)
      ⟨("nginx").toList, [("stable").toList], ("amd64").toList⟩ (by decide)⟩

/-- Claim C8: the reboot-required sample is determined solely by existence of
the marker path: absent yields zero and present yields one, whatever the
contents stored at the path. -/
theorem reboot_marker_existence (fs : Filesystem) :
    (fs rebootRequiredPath = none →
      collectRebootRequired (statPath fs rebootRequiredPath) = Metric.rebootRequired 0) ∧
    (∀ contents, fs rebootRequiredPath = some contents →
      collectRebootRequired (statPath fs rebootRequiredPath) = Metric.rebootRequired 1) := by
  constructor
  · intro h
    simp [statPath, collectRebootRequired, h]
  · intro contents h
    simp [statPath, collectRebootRequired, h]

/-- Witness for claim C8 on the filesystem with no files. -/
theorem reboot_marker_existence_witness :
    collectRebootRequired (statPath (fun _ => none) rebootRequiredPath) =
      Metric.rebootRequired 0 :=
  (reboot_marker_existence (fun _ => none)).1 rfl

/-- Claim C9: an existence check failing with any error other than not-exist
yields the reboot-required sample at one; only the definitive not-exist
outcome yields zero, so a failed check is indistinguishable from presence. -/
theorem reboot_stat_error_reads_present :
    collectRebootRequired StatResult.otherError = Metric.rebootRequired 1 ∧
    collectRebootRequired StatResult.ok = Metric.rebootRequired 1 ∧
    collectRebootRequired StatResult.notExist = Metric.rebootRequired 0 :=
  ⟨rfl, rfl, rfl⟩

/-- Counterexample to claim C10 as stated: the line with first field a, b
and a trailing slash matches and produces name a, although the characters of
the first field up to its last slash are the three characters a slash b. -/
theorem parser_name_greedy_counterexample :
    parseAptOutput (("a/b/ 1.0 amd64").toList) =
      [⟨("a").toList, [("b/").toList], ("amd64").toList⟩] ∧
    ("a/b/").toList = ("a/b").toList ++ ['/'] ∧
    1 < (("a/b/").toList.count '/') ∧
    ("a").toList ≠ ("a/b").toList := by
  decide

/-- Claim C10 as amended: for every line producing a record whose first
space-separated field contains more than one slash, the name extends to the
last slash of the field that is followed by at least one further character
of the field, rather than to the last slash outright; in particular names
may contain slashes, and the suite list is parsed from the segment after
that slash. -/
theorem parser_name_greedy_amended (line : List Char) (p : Package)
    (f1 : List Char) (rest : List (List Char))
    (hm : matchLine line = some p)
    (hf : splitOnChar ' ' line = f1 :: rest)
    (_hcnt : 1 < f1.count '/') :
    ∃ s, f1 = p.Name ++ '/' :: s ∧ p.Name ≠ [] ∧ s ≠ [] ∧ '/' ∉ s.dropLast ∧
      p.Suites = unique (splitOnChar ',' s) := by
  obtain ⟨f1w, sf, f2, f3, r, hsp, hf1, hn, hs, hd, _, _, hsu, _⟩ :=
    matchLine_eq_some line p hm
  rw [hf] at hsp
  injection hsp with h1 h2
  subst h1
  exact ⟨sf, hf1, hn, hs, hd, hsu⟩

/-- Witness for the amended claim C10: a first field with two slashes whose
record name itself contains a slash. -/
theorem parser_name_greedy_amended_witness :
    matchLine (("x/y/z 1.0 amd64").toList) =
      some ⟨("x/y").toList, [("z").toList], ("amd64").toList⟩ ∧
    (∃ s, ("x/y/z").toList = ("x/y").toList ++ '/' :: s ∧ ("x/y").toList ≠ [] ∧
      s ≠ [] ∧ '/' ∉ s.dropLast ∧
      ([("z").toList] : List (List Char)) = unique (splitOnChar ',' s)) :=
  ⟨by decide,
    parser_name_greedy_amended (("x/y/z 1.0 amd64").toList)
      ⟨("x/y").toList, [("z").toList], ("amd64").toList⟩ (("x/y/z").toList)
      [("1.0").toList, ("amd64").toList] (by decide) (by decide) (by decide)⟩

end AptExporter
